import Mathlib

/-!
Verification of the quality-control system (models `piece.py`, `box.py`,
`quality_control.py`).

Conventions of the shallow embedding:
* Python `float` measurements (weight, length) are modelled as `ℚ`; the
  program only compares and averages them, it never relies on rounding.
* Python object identity: pieces created by the registry carry distinct
  id strings, so identity coincides with structural equality; at the
  `Box` level the piece type is an abstract type `π` with decidable
  equality standing for object identity.
* `datetime.now()` is an external input: every operation that can stamp a
  timestamp receives the current time as an explicit `String` argument.
* String formatting (`f"{n:04d}"`, `str.lower`) is embedded by explicit
  data-level functions below.
-/

/-- Little-endian decimal digits, with explicit fuel (the fuel is the
number itself, which bounds the digit count). Embeds the decimal
representation used by Python string formatting. -/
def natDigitsAux : ℕ → ℕ → List ℕ
  | _, 0 => []
  | 0, _ + 1 => []
  | fuel + 1, n + 1 => (n + 1) % 10 :: natDigitsAux fuel ((n + 1) / 10)

/-- Little-endian decimal digits of `n` (empty for 0). -/
def natDigits (n : ℕ) : List ℕ := natDigitsAux n n

/-- Decimal string of a natural number, as produced by Python `str`. -/
def natStr (n : ℕ) : String :=
  if n = 0 then "0" else String.mk (((natDigits n).reverse).map Nat.digitChar)

/-- Decimal string of an integer, as produced by Python `str`. -/
def intStr (i : ℤ) : String :=
  if i < 0 then "-" ++ natStr i.natAbs else natStr i.natAbs

/-- Rendering of a rational measurement inside a reason message (digits
only for integral values, `num/den` otherwise); stands for Python's
rendering of the numeric value inside an f-string. -/
def ratStr (q : ℚ) : String :=
  if q.den = 1 then intStr q.num else intStr q.num ++ "/" ++ natStr q.den

/-- Left-pad a string with `'0'` to a minimum width: Python `f"{n:0wd}"`. -/
def padZeroTo (width : ℕ) (s : String) : String :=
  String.mk (List.replicate (width - s.length) '0') ++ s

/-- ASCII lowercasing of a string: embeds Python `str.lower()` on the
ASCII inputs the program works with. -/
def strLower (s : String) : String := String.mk (s.data.map Char.toLower)

/-- Is `needle` a contiguous substring of `hay` (character lists)?
Embeds Python's `needle in hay` on strings. -/
def containsSub : List Char → List Char → Bool
  | hay, needle =>
    if needle.isPrefixOf hay then true
    else
      match hay with
      | [] => false
      | _ :: t => containsSub t needle

/-- `Piece` (`piece.py`): a manufactured piece with its quality verdict,
computed once at construction. -/
structure Piece where
  id : String
  weight : ℚ
  color : String
  length : ℚ
  approved : Bool
  rejection_reasons : List String
deriving DecidableEq

/-- `Piece.MIN_WEIGHT` (95 g). -/
def Piece.MIN_WEIGHT : ℚ := 95
/-- `Piece.MAX_WEIGHT` (105 g). -/
def Piece.MAX_WEIGHT : ℚ := 105
/-- `Piece.MIN_LENGTH` (10 cm). -/
def Piece.MIN_LENGTH : ℚ := 10
/-- `Piece.MAX_LENGTH` (20 cm). -/
def Piece.MAX_LENGTH : ℚ := 20

/-- The `color_map` normalization in `Piece._evaluate_quality`:
the localized synonyms `azul`/`verde` map to `blue`/`green`, anything
else is left unchanged. -/
def colorMap (c : String) : String :=
  if c = "azul" then "blue" else if c = "verde" then "green" else c

/-- Reason string for a weight failure (from `_evaluate_quality`). -/
def weightReason (w : ℚ) : String :=
  "Peso fora do padrão (" ++ ratStr w ++ "g - esperado: 95g-105g)"

/-- Reason string for a color failure (from `_evaluate_quality`). -/
def colorReason (c : String) : String :=
  "Cor inválida (" ++ c ++ " - esperado: azul ou verde)"

/-- Reason string for a length failure (from `_evaluate_quality`). -/
def lengthReason (l : ℚ) : String :=
  "Comprimento fora do padrão (" ++ ratStr l ++ "cm - esperado: 10cm-20cm)"

/-- `Piece.__init__` followed by `Piece._evaluate_quality`: lowercases the
color, normalizes synonyms, then checks the three rules in order
weight → color → length, accumulating one reason per failing rule;
`approved` holds iff no rule failed. -/
def Piece.make (piece_id : String) (weight : ℚ) (color : String) (length : ℚ) : Piece :=
  let c := colorMap (strLower color)
  let weight_bad : Bool := decide (weight < Piece.MIN_WEIGHT) || decide (weight > Piece.MAX_WEIGHT)
  let color_bad : Bool := !(decide (c = "blue") || decide (c = "green"))
  let length_bad : Bool := decide (length < Piece.MIN_LENGTH) || decide (length > Piece.MAX_LENGTH)
  { id := piece_id
    weight := weight
    color := c
    length := length
    approved := !(weight_bad || color_bad || length_bad)
    rejection_reasons :=
      (if weight_bad then [weightReason weight] else []) ++
      (if color_bad then [colorReason c] else []) ++
      (if length_bad then [lengthReason length] else []) }

/-- `Box` (`box.py`) over an abstract piece type `π` (object identity =
equality on `π`). -/
structure Box (π : Type) where
  number : ℕ
  pieces : List π
  closed : Bool
  closing_date : Option String
deriving DecidableEq

/-- `Box.MAX_CAPACITY` (10). -/
def Box.MAX_CAPACITY : ℕ := 10

/-- `Box.__init__`. -/
def Box.init (π : Type) (box_number : ℕ) : Box π :=
  { number := box_number, pieces := [], closed := false, closing_date := none }

/-- `Box.close`: stamps the closing time (passed in explicitly). -/
def Box.close {π : Type} (b : Box π) (now : String) : Box π :=
  { b with closed := true, closing_date := some now }

/-- `Box.add_piece`: refuses when closed, appends when below capacity and
closes (with timestamp) when the new length reaches capacity; the `Bool`
is the Python return value. -/
def Box.add_piece {π : Type} (b : Box π) (p : π) (now : String) : Box π × Bool :=
  if b.closed then (b, false)
  else if b.pieces.length < Box.MAX_CAPACITY then
    let b₁ : Box π := { b with pieces := b.pieces ++ [p] }
    (if b₁.pieces.length = Box.MAX_CAPACITY then b₁.close now else b₁, true)
  else (b, false)

/-- `list.remove`: drop the first element equal to `p` (Python `==` is
object identity here). -/
def removeFirst {π : Type} [DecidableEq π] : List π → π → List π
  | [], _ => []
  | x :: xs, p => if x = p then xs else x :: removeFirst xs p

/-- `Box.remove_piece`: removes the first occurrence when present, and
reopens (clearing the closing date) when the box was closed. -/
def Box.remove_piece {π : Type} [DecidableEq π] (b : Box π) (p : π) : Box π × Bool :=
  if p ∈ b.pieces then
    let b₁ : Box π := { b with pieces := removeFirst b.pieces p }
    (if b₁.closed then { b₁ with closed := false, closing_date := none } else b₁, true)
  else (b, false)

/-- `QualityControlSystem.__init__` state: the item list, the box
sequence (starting with box #1) and the identifier counter. -/
structure QualityControlSystem where
  pieces : List Piece
  boxes : List (Box Piece)
  next_id : ℕ
deriving DecidableEq

/-- The identifier format of `generate_piece_id`: `f"P{n:04d}"`. -/
def pieceId (n : ℕ) : String := "P" ++ padZeroTo 4 (natStr n)

namespace QualityControlSystem

/-- The initial state built by `__init__`. -/
def init : QualityControlSystem :=
  { pieces := [], boxes := [Box.init Piece 1], next_id := 1 }

/-- `generate_piece_id`: returns the fresh id and bumps the counter. -/
def generate_piece_id (s : QualityControlSystem) : String × QualityControlSystem :=
  (pieceId s.next_id, { s with next_id := s.next_id + 1 })

/-- The informative part of the dict returned by `_add_piece_to_box`. -/
structure BoxAddInfo where
  box_closed : Bool
  new_box_created : Bool
  current_box : Option (Box Piece)
  new_box : Option (Box Piece)
deriving DecidableEq

/-- `_add_piece_to_box`: adds an approved piece to the current (last)
box; when that closes the box, appends a fresh box numbered
`len(boxes) + 1`. The `none` branch of `getLast?` is unreachable in the
program (the box list is never empty; Python indexes `boxes[-1]`). -/
def _add_piece_to_box (s : QualityControlSystem) (p : Piece) (now : String) :
    QualityControlSystem × BoxAddInfo :=
  match s.boxes.getLast? with
  | none => (s, ⟨false, false, none, none⟩)
  | some current_box =>
    let res := current_box.add_piece p now
    if res.2 then
      let current' := res.1
      let boxes₁ := s.boxes.dropLast ++ [current']
      if current'.closed then
        let new_box := Box.init Piece (boxes₁.length + 1)
        ({ s with boxes := boxes₁ ++ [new_box] }, ⟨true, true, some current', some new_box⟩)
      else
        ({ s with boxes := boxes₁ }, ⟨false, false, some current', none⟩)
    else (s, ⟨false, false, none, none⟩)

/-- The dict returned by `register_piece`. -/
structure RegisterResult where
  piece : Piece
  approved : Bool
  box_closed : Bool
  new_box_created : Bool
  current_box : Option (Box Piece)
  new_box : Option (Box Piece)
deriving DecidableEq

/-- `register_piece`: draws a fresh id, constructs the piece (which
classifies itself), appends it unconditionally to the item list, and
hands it to the current box when approved. -/
def register_piece (s : QualityControlSystem) (weight : ℚ) (color : String) (length : ℚ)
    (now : String) : QualityControlSystem × RegisterResult :=
  let idAndS := s.generate_piece_id
  let p := Piece.make idAndS.1 weight color length
  let s₂ := { idAndS.2 with pieces := idAndS.2.pieces ++ [p] }
  if p.approved then
    let added := s₂._add_piece_to_box p now
    (added.1, ⟨p, p.approved, added.2.box_closed, added.2.new_box_created,
               added.2.current_box, added.2.new_box⟩)
  else
    (s₂, ⟨p, p.approved, false, false, none, none⟩)

/-- `_remove_piece_from_boxes`: walk the boxes in sequence order and
remove the piece from the first box whose `remove_piece` succeeds. -/
def removeFromBoxes : List (Box Piece) → Piece → List (Box Piece)
  | [], _ => []
  | b :: bs, p =>
    let res := b.remove_piece p
    if res.2 then res.1 :: bs else b :: removeFromBoxes bs p

/-- The dict returned by `remove_piece`. -/
structure RemoveResult where
  success : Bool
  piece : Option Piece
  message : String
deriving DecidableEq

/-- `remove_piece`: pops the item at `piece_index` when the index is in
bounds (the Python check is `0 <= piece_index < len(pieces)`, so
negative indices fail), and additionally removes an approved item from
the boxes. The inner `none` branch is unreachable (the guard puts the
index in bounds). -/
def remove_piece (s : QualityControlSystem) (piece_index : ℤ) :
    QualityControlSystem × RemoveResult :=
  if 0 ≤ piece_index ∧ piece_index < (s.pieces.length : ℤ) then
    match s.pieces[piece_index.toNat]? with
    | some p =>
      let s₁ := { s with pieces := s.pieces.eraseIdx piece_index.toNat }
      let s₂ := if p.approved then { s₁ with boxes := removeFromBoxes s₁.boxes p } else s₁
      (s₂, { success := true, piece := some p,
             message := "Piece " ++ p.id ++ " removed successfully" })
    | none => (s, { success := false, piece := none, message := "Invalid piece index" })
  else
    (s, { success := false, piece := none, message := "Invalid piece index" })

/-- `get_approved_pieces`. -/
def get_approved_pieces (s : QualityControlSystem) : List Piece :=
  s.pieces.filter (fun p => p.approved)

/-- `get_rejected_pieces`. -/
def get_rejected_pieces (s : QualityControlSystem) : List Piece :=
  s.pieces.filter (fun p => !p.approved)

/-- `get_closed_boxes`. -/
def get_closed_boxes (s : QualityControlSystem) : List (Box Piece) :=
  s.boxes.filter (fun b => b.closed)

/-- `get_open_boxes`. -/
def get_open_boxes (s : QualityControlSystem) : List (Box Piece) :=
  s.boxes.filter (fun b => !b.closed)

/-- The dict returned by `_analyze_rejection_reasons`. -/
structure RejectionAnalysis where
  weight_issues : ℕ
  color_issues : ℕ
  length_issues : ℕ
deriving DecidableEq

/-- One marker test of `_analyze_rejection_reasons`: Python
`hi in reason or lo in reason`. -/
def reasonMatches (hi lo reason : String) : Bool :=
  containsSub reason.data hi.data || containsSub reason.data lo.data

/-- Number of (piece, reason) pairs among `pieces` whose reason contains
one of the two markers — the running `+= 1` counter of the source. -/
def countMarker (pieces : List Piece) (hi lo : String) : ℕ :=
  (pieces.map (fun p => (p.rejection_reasons.filter (reasonMatches hi lo)).length)).sum

/-- `_analyze_rejection_reasons`: scans every rejected piece's reason
strings for the markers `Weight`/`weight`, `Color`/`color`,
`Length`/`length`. -/
def _analyze_rejection_reasons (rejected : List Piece) : RejectionAnalysis :=
  { weight_issues := countMarker rejected "Weight" "weight"
    color_issues := countMarker rejected "Color" "color"
    length_issues := countMarker rejected "Length" "length" }

/-- The statistics dict of `get_statistics` (the optional
`quality_statistics` entry — averages over approved pieces — is not
needed by any claim and is omitted from the embedding). -/
structure Stats where
  total_pieces : ℕ
  approved_count : ℕ
  rejected_count : ℕ
  approval_rate : ℚ
  closed_boxes : ℕ
  open_boxes : ℕ
  rejection_analysis : Option RejectionAnalysis
deriving DecidableEq

/-- `get_statistics`. -/
def get_statistics (s : QualityControlSystem) : Stats :=
  let approved := s.get_approved_pieces
  let rejected := s.get_rejected_pieces
  let total := s.pieces.length
  { total_pieces := total
    approved_count := approved.length
    rejected_count := rejected.length
    approval_rate := if total > 0 then (approved.length : ℚ) / (total : ℚ) * 100 else 0
    closed_boxes := s.get_closed_boxes.length
    open_boxes := s.get_open_boxes.length
    rejection_analysis :=
      if rejected.isEmpty then none else some (_analyze_rejection_reasons rejected) }

end QualityControlSystem

/-- One externally triggered operation of the register/remove flow; the
`now` argument of `reg` is the wall-clock reading used for a closing
timestamp, an input of the step. -/
inductive Op where
  | reg (weight : ℚ) (color : String) (length : ℚ) (now : String)
  | rem (piece_index : ℤ)

/-- Apply one operation to the registry state. -/
def QualityControlSystem.apply (s : QualityControlSystem) : Op → QualityControlSystem
  | .reg w c l t => (s.register_piece w c l t).1
  | .rem i => (s.remove_piece i).1

/-- Run a list of operations from the initial state. -/
def QualityControlSystem.run (ops : List Op) : QualityControlSystem :=
  ops.foldl QualityControlSystem.apply QualityControlSystem.init

/-- States reachable from the initial state by register/remove calls. -/
def QualityControlSystem.Reachable (s : QualityControlSystem) : Prop :=
  ∃ ops : List Op, QualityControlSystem.run ops = s

/-- All pieces currently stored in boxes, in box order. -/
def boxPieces (s : QualityControlSystem) : List Piece :=
  (s.boxes.map Box.pieces).flatten

/-- Numeric value of a decimal digit character. -/
def charDigit (c : Char) : ℕ := c.toNat - 48

/-- Value of a most-significant-first decimal digit string; left inverse
of the zero-padded rendering, used to show identifiers are never
reused. -/
def digitsVal (l : List Char) : ℕ := Nat.ofDigits 10 ((l.map charDigit).reverse)

/-- Does this operation call `register_piece`? -/
def Op.isReg : Op → Bool
  | .reg _ _ _ _ => true
  | .rem _ => false

/-- Number of `register_piece` calls in a list of operations. -/
def regCount (ops : List Op) : ℕ := (ops.filter Op.isReg).length

/-- The quality-rule invariants the registry is meant to keep of every
reachable state; proved inductive below. -/
def SysInv (s : QualityControlSystem) : Prop :=
  s.boxes ≠ [] ∧
  (∀ b, s.boxes.getLast? = some b → b.closed = false ∧ b.pieces.length < Box.MAX_CAPACITY) ∧
  (∀ b ∈ s.boxes, b.pieces.length ≤ Box.MAX_CAPACITY) ∧
  (boxPieces s).Nodup ∧
  (∀ p ∈ boxPieces s, p.approved = true) ∧
  (∀ p ∈ boxPieces s, ∃ k, 0 < k ∧ k < s.next_id ∧ p.id = pieceId k) ∧
  0 < s.next_id

/-! ## Decimal rendering and identifier injectivity -/

theorem natDigitsAux_eq (fuel n : ℕ) (h : n ≤ fuel) : natDigitsAux fuel n = Nat.digits 10 n := by
  induction fuel generalizing n with
  | zero =>
    interval_cases n
    simp [natDigitsAux]
  | succ fuel ih =>
    cases n with
    | zero => simp [natDigitsAux]
    | succ m =>
      rw [natDigitsAux, Nat.digits_def' (by norm_num : 1 < 10) (Nat.succ_pos m)]
      congr 1
      have h1 : (m + 1) / 10 < m + 1 := Nat.div_lt_self (Nat.succ_pos m) (by norm_num)
      exact ih _ (by omega)

theorem natDigits_eq (n : ℕ) : natDigits n = Nat.digits 10 n :=
  natDigitsAux_eq n n le_rfl

theorem charDigit_digitChar : ∀ d, d < 10 → charDigit (Nat.digitChar d) = d := by decide

theorem ofDigits_replicate_zero (k : ℕ) : Nat.ofDigits 10 (List.replicate k 0) = 0 := by
  induction k with
  | zero => simp [Nat.ofDigits_nil]
  | succ k ih => simp [List.replicate_succ, Nat.ofDigits_cons, ih]

theorem digitsVal_pad (k n : ℕ) :
    digitsVal (List.replicate k '0' ++ (natStr n).data) = n := by
  have hc : charDigit '0' = 0 := rfl
  by_cases hn : n = 0
  · subst hn
    have h0 : (natStr 0).data = ['0'] := rfl
    rw [h0]
    simp only [digitsVal, List.map_append, List.map_replicate, hc]
    have h1 : List.map charDigit ['0'] = [0] := rfl
    rw [h1, List.reverse_append, List.reverse_replicate]
    simp [Nat.ofDigits_cons, ofDigits_replicate_zero]
  · simp only [digitsVal, natStr, if_neg hn, List.map_append, List.map_replicate, hc]
    rw [natDigits_eq, List.map_map]
    have hmap : (Nat.digits 10 n).reverse.map (charDigit ∘ Nat.digitChar)
        = (Nat.digits 10 n).reverse := by
      have := List.map_congr_left (l := (Nat.digits 10 n).reverse)
        (f := charDigit ∘ Nat.digitChar) (g := id) ?_
      · simpa using this
      · intro d hd
        have hd' : d ∈ Nat.digits 10 n := List.mem_reverse.mp hd
        have : d < 10 := Nat.digits_lt_base (by norm_num) hd'
        simpa using charDigit_digitChar d this
    rw [hmap, List.reverse_append, List.reverse_reverse, List.reverse_replicate,
      Nat.ofDigits_append, ofDigits_replicate_zero, Nat.ofDigits_digits]
    ring

theorem pieceId_data (n : ℕ) :
    (pieceId n).data
      = 'P' :: (List.replicate (4 - (natStr n).length) '0' ++ (natStr n).data) := rfl

/-- Identifiers are in bijection with their counter value: the format
`P` + zero-padded decimal never produces the same string twice. -/
theorem pieceId_injective : Function.Injective pieceId := by
  intro a b h
  have hd := congrArg String.data h
  rw [pieceId_data, pieceId_data] at hd
  have h2 : List.replicate (4 - (natStr a).length) '0' ++ (natStr a).data
      = List.replicate (4 - (natStr b).length) '0' ++ (natStr b).data := by
    simpa using hd
  have h3 := congrArg digitsVal h2
  rwa [digitsVal_pad, digitsVal_pad] at h3


/-! ## Claim C1: piece classification -/

/-- Claim C1: constructing a piece yields `approved = true` iff the
weight lies in [95, 105], the lowercased synonym-normalized color is
blue or green, and the length lies in [10, 20]; `approved` holds exactly
when the rejection-reason list is empty; and each failing rule appends
exactly one reason string, in the fixed order weight, color, length. -/
theorem claim_C1_piece_classification (piece_id : String) (w : ℚ) (c : String) (l : ℚ) :
    ((Piece.make piece_id w c l).approved = true ↔
      ((Piece.MIN_WEIGHT ≤ w ∧ w ≤ Piece.MAX_WEIGHT) ∧
       (colorMap (strLower c) = "blue" ∨ colorMap (strLower c) = "green") ∧
       (Piece.MIN_LENGTH ≤ l ∧ l ≤ Piece.MAX_LENGTH))) ∧
    ((Piece.make piece_id w c l).approved = true ↔
      (Piece.make piece_id w c l).rejection_reasons = []) ∧
    ((Piece.make piece_id w c l).rejection_reasons =
      (if w < Piece.MIN_WEIGHT ∨ w > Piece.MAX_WEIGHT then [weightReason w] else []) ++
      (if ¬(colorMap (strLower c) = "blue" ∨ colorMap (strLower c) = "green")
        then [colorReason (colorMap (strLower c))] else []) ++
      (if l < Piece.MIN_LENGTH ∨ l > Piece.MAX_LENGTH then [lengthReason l] else [])) := by
  refine ⟨?_, ?_, ?_⟩
  · simp only [Piece.make, Bool.not_eq_true', Bool.or_eq_false_iff, decide_eq_false_iff_not,
      Bool.not_eq_false', Bool.or_eq_true, decide_eq_true_eq, not_lt, gt_iff_lt]
    tauto
  · simp only [Piece.make]
    cases hwb : (decide (w < Piece.MIN_WEIGHT) || decide (w > Piece.MAX_WEIGHT)) <;>
      cases hcb : (decide (colorMap (strLower c) = "blue") ||
          decide (colorMap (strLower c) = "green")) <;>
        cases hlb : (decide (l < Piece.MIN_LENGTH) || decide (l > Piece.MAX_LENGTH)) <;>
          simp
  · simp only [Piece.make]
    cases hwb : (decide (w < Piece.MIN_WEIGHT) || decide (w > Piece.MAX_WEIGHT)) <;>
      cases hcb : (decide (colorMap (strLower c) = "blue") ||
          decide (colorMap (strLower c) = "green")) <;>
        cases hlb : (decide (l < Piece.MIN_LENGTH) || decide (l > Piece.MAX_LENGTH)) <;>
          · simp only [Bool.or_eq_false_iff, Bool.or_eq_true, decide_eq_false_iff_not,
              decide_eq_true_eq] at hwb hcb hlb
            simp [hwb, hcb, hlb]

/-! ## Claims C2 and C3: box add/remove -/

/-- Claim C3: removing an absent piece returns `false`; removing a
present piece deletes its first occurrence, returns `true`, and — when
the box was closed — unconditionally reopens it and clears the closing
timestamp (when it was open, the closing date is untouched). -/
theorem claim_C3_box_remove (π : Type) [DecidableEq π] (b : Box π) (p : π) :
    (p ∉ b.pieces → b.remove_piece p = (b, false)) ∧
    (p ∈ b.pieces →
      (b.remove_piece p).2 = true ∧
      (b.remove_piece p).1.pieces = removeFirst b.pieces p ∧
      (b.remove_piece p).1.closed = false ∧
      (b.closed = true → (b.remove_piece p).1.closing_date = none) ∧
      (b.closed = false → (b.remove_piece p).1.closing_date = b.closing_date)) := by
  refine ⟨?_, ?_⟩
  · intro h; simp [Box.remove_piece, h]
  · intro h
    by_cases hcl : b.closed <;> simp [Box.remove_piece, h, hcl]

theorem claim_C1_piece_classification_witness :
    (Piece.make "P0001" 100 "AZUL" 15).approved = true ∧
    (Piece.make "P0002" 200 "azul" 15).rejection_reasons = [weightReason 200] := by
  constructor
  · exact (claim_C1_piece_classification "P0001" 100 "AZUL" 15).1.mpr (by decide)
  · rw [(claim_C1_piece_classification "P0002" 200 "azul" 15).2.2]
    decide

theorem claim_C3_box_remove_witness :
    ((Box.mk 1 [4, 5] true (some "d") : Box ℕ).remove_piece 4).2 = true ∧
    ((Box.mk 1 [4, 5] true (some "d") : Box ℕ).remove_piece 4).1.pieces = removeFirst [4, 5] 4 ∧
    ((Box.mk 1 [4, 5] true (some "d") : Box ℕ).remove_piece 4).1.closed = false ∧
    ((Box.mk 1 [4, 5] true (some "d") : Box ℕ).remove_piece 4).1.closing_date = none ∧
    (Box.mk 1 [4] false none : Box ℕ).remove_piece 9 = (Box.mk 1 [4] false none, false) := by
  have h := (claim_C3_box_remove ℕ (Box.mk 1 [4, 5] true (some "d")) 4).2 (by decide)
  exact ⟨h.1, h.2.1, h.2.2.1, h.2.2.2.1 rfl,
    (claim_C3_box_remove ℕ (Box.mk 1 [4] false none) 9).1 (by decide)⟩

/-! ## Counter bookkeeping (claim C5) -/

namespace QualityControlSystem

theorem _add_piece_to_box_next_id (s : QualityControlSystem) (p : Piece) (t : String) :
    (s._add_piece_to_box p t).1.next_id = s.next_id := by
  unfold _add_piece_to_box
  split
  · rfl
  · dsimp only
    split
    · split <;> rfl
    · rfl

theorem _add_piece_to_box_pieces (s : QualityControlSystem) (p : Piece) (t : String) :
    (s._add_piece_to_box p t).1.pieces = s.pieces := by
  unfold _add_piece_to_box
  split
  · rfl
  · dsimp only
    split
    · split <;> rfl
    · rfl

theorem register_piece_next_id (s : QualityControlSystem) (w : ℚ) (c : String) (l : ℚ)
    (t : String) : (s.register_piece w c l t).1.next_id = s.next_id + 1 := by
  simp only [register_piece, generate_piece_id]
  by_cases h : (Piece.make (pieceId s.next_id) w c l).approved <;>
    simp [h, _add_piece_to_box_next_id]

theorem remove_piece_next_id (s : QualityControlSystem) (i : ℤ) :
    (s.remove_piece i).1.next_id = s.next_id := by
  unfold remove_piece
  split
  · split
    · split <;> rfl
    · rfl
  · rfl

theorem apply_next_id (s : QualityControlSystem) (op : Op) :
    (s.apply op).next_id = s.next_id + (if op.isReg then 1 else 0) := by
  cases op with
  | reg w c l t => simp [apply, Op.isReg, register_piece_next_id]
  | rem i => simp [apply, Op.isReg, remove_piece_next_id]

theorem foldl_apply_next_id (ops : List Op) (s : QualityControlSystem) :
    (ops.foldl apply s).next_id = s.next_id + regCount ops := by
  induction ops generalizing s with
  | nil => simp [regCount]
  | cons op ops ih =>
    rw [List.foldl_cons, ih, apply_next_id]
    cases op with
    | reg w c l t =>
      simp [regCount, Op.isReg, List.filter]
      omega
    | rem i => simp [regCount, Op.isReg, List.filter]

theorem run_next_id (ops : List Op) : (run ops).next_id = regCount ops + 1 := by
  rw [run, foldl_apply_next_id]
  simp [init, Nat.add_comm]

end QualityControlSystem

/-- Claim C5: after any sequence of operations with `n` register calls,
the next register call is assigned identifier `pieceId (n + 1)` — i.e.
the `k`-th register call ever gets `P` + `k` zero-padded to 4 digits,
strictly in registration order; the counter equals the number of
registrations so far plus one and never decreases (removals included),
and `pieceId` is injective, so an identifier is never reused. -/
theorem claim_C5_identifier_assignment :
    (∀ (ops : List Op) (w : ℚ) (c : String) (l : ℚ) (t : String),
      ((QualityControlSystem.run ops).register_piece w c l t).2.piece.id
        = pieceId (regCount ops + 1)) ∧
    (∀ ops : List Op, (QualityControlSystem.run ops).next_id = regCount ops + 1) ∧
    (∀ (s : QualityControlSystem) (op : Op), s.next_id ≤ (s.apply op).next_id) ∧
    Function.Injective pieceId := by
  refine ⟨?_, QualityControlSystem.run_next_id, ?_, pieceId_injective⟩
  · intro ops w c l t
    have hid : ((QualityControlSystem.run ops).register_piece w c l t).2.piece
        = Piece.make (pieceId (QualityControlSystem.run ops).next_id) w c l := by
      simp only [QualityControlSystem.register_piece, QualityControlSystem.generate_piece_id]
      by_cases h : (Piece.make (pieceId (QualityControlSystem.run ops).next_id) w c l).approved <;>
        simp [h]
    rw [hid, QualityControlSystem.run_next_id]
    rfl
  · intro s op
    rw [QualityControlSystem.apply_next_id]
    omega

theorem claim_C5_identifier_assignment_witness :
    ((QualityControlSystem.run [Op.reg 100 "azul" 15 "t"]).register_piece 200 "black" 5 "u").2.piece.id
      = pieceId 2 ∧ (3 : ℕ) = 3 :=
  ⟨claim_C5_identifier_assignment.1 [Op.reg 100 "azul" 15 "t"] 200 "black" 5 "u",
   claim_C5_identifier_assignment.2.2.2 rfl⟩

/-! ## Helper lemmas about box operations -/

theorem removeFirst_sublist {π : Type} [DecidableEq π] (l : List π) (p : π) :
    (removeFirst l p).Sublist l := by
  induction l with
  | nil => simp [removeFirst]
  | cons x xs ih =>
    simp only [removeFirst]
    split
    · exact List.sublist_cons_self x xs
    · exact ih.cons₂ x

theorem Box.remove_piece_fst_pieces_sublist {π : Type} [DecidableEq π] (b : Box π) (p : π) :
    (b.remove_piece p).1.pieces.Sublist b.pieces := by
  unfold Box.remove_piece
  split
  · dsimp only
    split <;> exact removeFirst_sublist _ _
  · exact List.Sublist.refl _

theorem Box.remove_piece_fst_closed {π : Type} [DecidableEq π] (b : Box π) (p : π) :
    (b.remove_piece p).1.closed = false ∨ (b.remove_piece p).1 = b := by
  unfold Box.remove_piece
  split
  · dsimp only
    cases hcl : b.closed with
    | false => left; simp [hcl]
    | true => left; simp [hcl]
  · right; rfl

theorem Box.remove_piece_fst_number {π : Type} [DecidableEq π] (b : Box π) (p : π) :
    (b.remove_piece p).1.number = b.number := by
  unfold Box.remove_piece
  split
  · dsimp only
    split <;> rfl
  · rfl

/-! ## Helper lemmas about `removeFromBoxes` -/

namespace QualityControlSystem

theorem removeFromBoxes_length (bs : List (Box Piece)) (p : Piece) :
    (removeFromBoxes bs p).length = bs.length := by
  induction bs with
  | nil => rfl
  | cons b bs ih =>
    simp only [removeFromBoxes]
    split
    · simp
    · simp [ih]

theorem removeFromBoxes_flatten_sublist (bs : List (Box Piece)) (p : Piece) :
    ((removeFromBoxes bs p).map Box.pieces).flatten.Sublist ((bs.map Box.pieces).flatten) := by
  induction bs with
  | nil => simp [removeFromBoxes]
  | cons b bs ih =>
    simp only [removeFromBoxes]
    split
    · simp only [List.map_cons, List.flatten_cons]
      exact (Box.remove_piece_fst_pieces_sublist b p).append (List.Sublist.refl _)
    · simp only [List.map_cons, List.flatten_cons]
      exact (List.Sublist.refl _).append ih

theorem removeFromBoxes_mem (bs : List (Box Piece)) (p : Piece) :
    ∀ b' ∈ removeFromBoxes bs p, b' ∈ bs ∨ ∃ b ∈ bs, b' = (b.remove_piece p).1 := by
  induction bs with
  | nil => simp [removeFromBoxes]
  | cons b bs ih =>
    intro b' hb'
    simp only [removeFromBoxes] at hb'
    split at hb'
    · rcases List.mem_cons.mp hb' with h | h
      · right; exact ⟨b, List.mem_cons_self b bs, h⟩
      · left; exact List.mem_cons_of_mem b h
    · rcases List.mem_cons.mp hb' with h | h
      · left; exact h ▸ List.mem_cons_self b bs
      · rcases ih b' h with h' | ⟨b₀, hb₀, he⟩
        · left; exact List.mem_cons_of_mem b h'
        · right; exact ⟨b₀, List.mem_cons_of_mem b hb₀, he⟩

theorem removeFromBoxes_cons (b : Box Piece) (bs : List (Box Piece)) (p : Piece) :
    removeFromBoxes (b :: bs) p =
      if (b.remove_piece p).2 = true then (b.remove_piece p).1 :: bs
      else b :: removeFromBoxes bs p := rfl

theorem removeFromBoxes_getLast? (bs : List (Box Piece)) (p : Piece) (b : Box Piece)
    (h : bs.getLast? = some b) :
    (removeFromBoxes bs p).getLast? = some b ∨
      (removeFromBoxes bs p).getLast? = some (b.remove_piece p).1 := by
  induction bs with
  | nil => simp at h
  | cons x xs ih =>
    cases xs with
    | nil =>
      simp only [List.getLast?_singleton, Option.some.injEq] at h
      subst h
      simp only [removeFromBoxes]
      split
      · right; simp
      · left; simp
    | cons y t =>
      rw [List.getLast?_cons_cons] at h
      rw [removeFromBoxes_cons]
      split
      · left
        rw [List.getLast?_cons_cons]
        exact h
      · have hlen : removeFromBoxes (y :: t) p ≠ [] := by
          have := removeFromBoxes_length (y :: t) p
          intro hnil
          rw [hnil] at this
          simp at this
        rcases List.exists_cons_of_ne_nil hlen with ⟨z, zs, hz⟩
        rcases ih h with h' | h' <;> [left; right] <;>
          · rw [hz] at h' ⊢
            rw [List.getLast?_cons_cons]
            exact h'

end QualityControlSystem

/-- Successful add: when the box is open with room, `add_piece` appends
the piece and closes the box exactly on reaching capacity. -/
theorem Box.add_piece_success {π : Type} (b : Box π) (p : π) (t : String)
    (h1 : b.closed = false) (h2 : b.pieces.length < Box.MAX_CAPACITY) :
    b.add_piece p t =
      (if b.pieces.length + 1 = Box.MAX_CAPACITY
        then Box.mk b.number (b.pieces ++ [p]) true (some t)
        else Box.mk b.number (b.pieces ++ [p]) false b.closing_date, true) := by
  by_cases hfull : b.pieces.length + 1 = Box.MAX_CAPACITY <;>
    simp [Box.add_piece, Box.close, h1, h2, hfull]

namespace QualityControlSystem

/-- Explicit description of `_add_piece_to_box` when the current box is
open with room (the situation the registry maintains). -/
theorem _add_piece_to_box_spec (s : QualityControlSystem) (p : Piece) (t : String)
    (b : Box Piece) (hb : s.boxes.getLast? = some b) (h1 : b.closed = false)
    (h2 : b.pieces.length < Box.MAX_CAPACITY) :
    s._add_piece_to_box p t =
      if b.pieces.length + 1 = Box.MAX_CAPACITY then
        ({ s with boxes := (s.boxes.dropLast ++ [Box.mk b.number (b.pieces ++ [p]) true (some t)])
              ++ [Box.init Piece (s.boxes.length + 1)] },
         ⟨true, true, some (Box.mk b.number (b.pieces ++ [p]) true (some t)),
          some (Box.init Piece (s.boxes.length + 1))⟩)
      else
        ({ s with boxes :=
            s.boxes.dropLast ++ [Box.mk b.number (b.pieces ++ [p]) false b.closing_date] },
         ⟨false, false, some (Box.mk b.number (b.pieces ++ [p]) false b.closing_date), none⟩) := by
  have hne : s.boxes ≠ [] := by
    intro hnil
    rw [hnil] at hb
    simp at hb
  have hpos : 0 < s.boxes.length := List.length_pos.mpr hne
  have hlen : (s.boxes.dropLast
      ++ [Box.mk b.number (b.pieces ++ [p]) true (some t)]).length = s.boxes.length := by
    simp [List.length_dropLast]
    omega
  unfold _add_piece_to_box
  rw [hb]
  dsimp only
  rw [Box.add_piece_success b p t h1 h2]
  by_cases hfull : b.pieces.length + 1 = Box.MAX_CAPACITY
  · rw [if_pos hfull]
    dsimp only
    rw [if_pos hfull]
    simp [hlen]
  · rw [if_neg hfull]
    dsimp only
    rw [if_neg hfull]
    simp

/-- The initial state satisfies the registry invariant. -/
theorem sysInv_init : SysInv init := by
  refine ⟨by simp [init], ?_, ?_, ?_, ?_, ?_, ?_⟩
  · intro b hb
    simp only [init, List.getLast?_singleton, Option.some.injEq] at hb
    subst hb
    simp [Box.init, Box.MAX_CAPACITY]
  · intro b hb
    simp only [init, List.mem_singleton] at hb
    subst hb
    simp [Box.init, Box.MAX_CAPACITY]
  · simp [boxPieces, init, Box.init]
  · intro p hp
    simp [boxPieces, init, Box.init] at hp
  · intro p hp
    simp [boxPieces, init, Box.init] at hp
  · simp [init]

end QualityControlSystem

namespace QualityControlSystem

/-- The state component of `register_piece`, by cases on approval. -/
theorem register_piece_fst (s : QualityControlSystem) (w : ℚ) (c : String) (l : ℚ)
    (t : String) :
    (s.register_piece w c l t).1 =
      if (Piece.make (pieceId s.next_id) w c l).approved = true then
        (({ s with
            pieces := s.pieces ++ [Piece.make (pieceId s.next_id) w c l]
            next_id := s.next_id + 1 } : QualityControlSystem)._add_piece_to_box
          (Piece.make (pieceId s.next_id) w c l) t).1
      else
        { s with
          pieces := s.pieces ++ [Piece.make (pieceId s.next_id) w c l]
          next_id := s.next_id + 1 } := by
  simp only [register_piece, generate_piece_id]
  split <;> rfl

/-- `register_piece` preserves the registry invariant. -/
theorem sysInv_register (s : QualityControlSystem) (h : SysInv s) (w : ℚ) (c : String)
    (l : ℚ) (t : String) : SysInv (s.register_piece w c l t).1 := by
  obtain ⟨hne, hlast, hlen, hnd, happ, hids, hpos⟩ := h
  have hfresh : Piece.make (pieceId s.next_id) w c l ∉ boxPieces s := by
    intro hmem
    obtain ⟨k, hk0, hklt, hkid⟩ := hids _ hmem
    have hpk : pieceId k = pieceId s.next_id := by
      have hpid : (Piece.make (pieceId s.next_id) w c l).id = pieceId s.next_id := rfl
      rw [← hkid, hpid]
    have := pieceId_injective hpk
    omega
  rw [register_piece_fst]
  by_cases happr : (Piece.make (pieceId s.next_id) w c l).approved = true
  case neg =>
    rw [if_neg happr]
    exact ⟨hne, hlast, hlen, hnd, happ,
      fun p hp => (hids p hp).imp
        (fun k hk => ⟨hk.1, show k < s.next_id + 1 from Nat.lt_succ_of_lt hk.2.1, hk.2.2⟩),
      show 0 < s.next_id + 1 from Nat.succ_pos _⟩
  case pos =>
    rw [if_pos happr]
    obtain ⟨b, hb⟩ : ∃ b, s.boxes.getLast? = some b := by
      cases hgl : s.boxes.getLast? with
      | none => exact absurd (List.getLast?_eq_none_iff.mp hgl) hne
      | some b => exact ⟨b, rfl⟩
    obtain ⟨hbcl, hblen⟩ := hlast b hb
    have hdecomp : s.boxes.dropLast ++ [b] = s.boxes := by
      have hgl := List.getLast?_eq_getLast s.boxes hne
      rw [hgl] at hb
      rw [← Option.some.inj hb]
      exact List.dropLast_append_getLast hne
    rw [_add_piece_to_box_spec
      ({ s with
         pieces := s.pieces ++ [Piece.make (pieceId s.next_id) w c l]
         next_id := s.next_id + 1 }) _ t b hb hbcl hblen]
    by_cases hfull : b.pieces.length + 1 = Box.MAX_CAPACITY
    · rw [if_pos hfull]
      unfold SysInv boxPieces
      dsimp only
      simp only [Box.MAX_CAPACITY] at hblen hfull ⊢
      have hK : (List.map Box.pieces
            ((s.boxes.dropLast
              ++ [Box.mk b.number (b.pieces ++ [Piece.make (pieceId s.next_id) w c l])
                    true (some t)])
              ++ [Box.init Piece (s.boxes.length + 1)])).flatten
          = boxPieces s ++ [Piece.make (pieceId s.next_id) w c l] := by
        conv_rhs => rw [boxPieces, ← hdecomp]
        simp [Box.init]
      refine ⟨by simp, ?_, ?_, ?_, ?_, ?_, Nat.succ_pos _⟩
      · intro b' hb'
        rw [List.getLast?_concat] at hb'
        rw [← Option.some.inj hb']
        exact ⟨rfl, by simp [Box.init]⟩
      · intro bx hbx
        rcases List.mem_append.mp hbx with hbx | hbx
        · rcases List.mem_append.mp hbx with hbx | hbx
          · exact hlen bx (List.dropLast_subset _ hbx)
          · rw [List.mem_singleton] at hbx
            subst hbx
            simp only [List.length_append, List.length_singleton]
            omega
        · rw [List.mem_singleton] at hbx
          subst hbx
          simp [Box.init]
      · rw [hK]
        exact hnd.append (List.nodup_singleton _)
          (fun q hq hq' => hfresh ((List.mem_singleton.mp hq') ▸ hq))
      · intro q hq
        rw [hK] at hq
        rcases List.mem_append.mp hq with hq | hq
        · exact happ q hq
        · rw [List.mem_singleton] at hq
          subst hq
          exact happr
      · intro q hq
        rw [hK] at hq
        rcases List.mem_append.mp hq with hq | hq
        · obtain ⟨k, hk0, hklt, hkid⟩ := hids q hq
          exact ⟨k, hk0, Nat.lt_succ_of_lt hklt, hkid⟩
        · rw [List.mem_singleton] at hq
          subst hq
          exact ⟨s.next_id, hpos, Nat.lt_succ_self _, rfl⟩
    · rw [if_neg hfull]
      unfold SysInv boxPieces
      dsimp only
      simp only [Box.MAX_CAPACITY] at hblen hfull ⊢
      have hK : (List.map Box.pieces
            (s.boxes.dropLast
              ++ [Box.mk b.number (b.pieces ++ [Piece.make (pieceId s.next_id) w c l])
                    false b.closing_date])).flatten
          = boxPieces s ++ [Piece.make (pieceId s.next_id) w c l] := by
        conv_rhs => rw [boxPieces, ← hdecomp]
        simp
      refine ⟨by simp, ?_, ?_, ?_, ?_, ?_, Nat.succ_pos _⟩
      · intro b' hb'
        rw [List.getLast?_concat] at hb'
        rw [← Option.some.inj hb']
        refine ⟨rfl, ?_⟩
        simp only [List.length_append, List.length_singleton]
        omega
      · intro bx hbx
        rcases List.mem_append.mp hbx with hbx | hbx
        · exact hlen bx (List.dropLast_subset _ hbx)
        · rw [List.mem_singleton] at hbx
          subst hbx
          simp only [List.length_append, List.length_singleton]
          omega
      · rw [hK]
        exact hnd.append (List.nodup_singleton _)
          (fun q hq hq' => hfresh ((List.mem_singleton.mp hq') ▸ hq))
      · intro q hq
        rw [hK] at hq
        rcases List.mem_append.mp hq with hq | hq
        · exact happ q hq
        · rw [List.mem_singleton] at hq
          subst hq
          exact happr
      · intro q hq
        rw [hK] at hq
        rcases List.mem_append.mp hq with hq | hq
        · obtain ⟨k, hk0, hklt, hkid⟩ := hids q hq
          exact ⟨k, hk0, Nat.lt_succ_of_lt hklt, hkid⟩
        · rw [List.mem_singleton] at hq
          subst hq
          exact ⟨s.next_id, hpos, Nat.lt_succ_self _, rfl⟩

end QualityControlSystem

namespace QualityControlSystem

/-- `remove_piece` preserves the registry invariant. -/
theorem sysInv_remove (s : QualityControlSystem) (h : SysInv s) (i : ℤ) :
    SysInv (s.remove_piece i).1 := by
  obtain ⟨hne, hlast, hlen, hnd, happ, hids, hpos⟩ := h
  unfold remove_piece
  split
  · split
    · dsimp only
      split
      · -- removed piece was approved: boxes are rewritten
        rename_i p hp happr
        unfold SysInv boxPieces
        dsimp only
        refine ⟨?_, ?_, ?_, ?_, ?_, ?_, hpos⟩
        · intro hnil
          have hl := removeFromBoxes_length s.boxes p
          rw [hnil] at hl
          exact hne (List.length_eq_zero.mp hl.symm)
        · obtain ⟨b, hb⟩ : ∃ b, s.boxes.getLast? = some b := by
            cases hgl : s.boxes.getLast? with
            | none => exact absurd (List.getLast?_eq_none_iff.mp hgl) hne
            | some b => exact ⟨b, rfl⟩
          obtain ⟨hbcl, hblen⟩ := hlast b hb
          intro b' hb'
          rcases removeFromBoxes_getLast? s.boxes p b hb with hg | hg
          · rw [hg] at hb'
            rw [← Option.some.inj hb']
            exact ⟨hbcl, hblen⟩
          · rw [hg] at hb'
            rw [← Option.some.inj hb']
            constructor
            · rcases Box.remove_piece_fst_closed b p with hc | hc
              · exact hc
              · rw [hc]; exact hbcl
            · exact lt_of_le_of_lt
                (List.Sublist.length_le (Box.remove_piece_fst_pieces_sublist b p)) hblen
        · intro bx hbx
          rcases removeFromBoxes_mem s.boxes p bx hbx with hx | ⟨b₀, hb₀, he⟩
          · exact hlen bx hx
          · rw [he]
            exact le_trans
              (List.Sublist.length_le (Box.remove_piece_fst_pieces_sublist b₀ p)) (hlen b₀ hb₀)
        · exact List.Nodup.sublist (removeFromBoxes_flatten_sublist s.boxes p) hnd
        · intro q hq
          exact happ q ((removeFromBoxes_flatten_sublist s.boxes p).subset hq)
        · intro q hq
          exact hids q ((removeFromBoxes_flatten_sublist s.boxes p).subset hq)
      · exact ⟨hne, hlast, hlen, hnd, happ, hids, hpos⟩
    · exact ⟨hne, hlast, hlen, hnd, happ, hids, hpos⟩
  · exact ⟨hne, hlast, hlen, hnd, happ, hids, hpos⟩

/-- Every operation preserves the registry invariant. -/
theorem sysInv_apply (s : QualityControlSystem) (op : Op) (h : SysInv s) :
    SysInv (s.apply op) := by
  cases op with
  | reg w c l t => exact sysInv_register s h w c l t
  | rem i => exact sysInv_remove s h i

theorem sysInv_foldl (ops : List Op) (s : QualityControlSystem) (h : SysInv s) :
    SysInv (ops.foldl apply s) := by
  induction ops generalizing s with
  | nil => exact h
  | cons op ops ih => exact ih _ (sysInv_apply s op h)

/-- The registry invariant holds in every reachable state. -/
theorem reachable_sysInv (s : QualityControlSystem) (h : Reachable s) : SysInv s := by
  obtain ⟨ops, rfl⟩ := h
  exact sysInv_foldl ops init sysInv_init

end QualityControlSystem

/-! ## Claim C2: box add (with the flow-level closing property) -/

/-- Claim C2: adding to a closed box, or to a box already at capacity,
returns `false` and leaves the box unchanged; otherwise the piece is
appended at the end, the call returns `true`, and the box becomes closed
with a closing timestamp exactly when the new length reaches the
capacity 10; `remove_piece` can never flip `closed` to true, and in the
register/remove flow a registry `remove_piece` never produces a closed
box that was not already present — so an add reaching capacity is the
only closed-flipping operation. -/
theorem claim_C2_box_add (π : Type) [DecidableEq π] (b : Box π) (p : π) (now : String) :
    (b.closed = true → b.add_piece p now = (b, false)) ∧
    (b.closed = false → Box.MAX_CAPACITY ≤ b.pieces.length → b.add_piece p now = (b, false)) ∧
    (b.closed = false → b.pieces.length < Box.MAX_CAPACITY →
      (b.add_piece p now).2 = true ∧
      (b.add_piece p now).1.pieces = b.pieces ++ [p] ∧
      ((b.add_piece p now).1.closed = true ↔ b.pieces.length + 1 = Box.MAX_CAPACITY) ∧
      (b.add_piece p now).1.closing_date =
        (if b.pieces.length + 1 = Box.MAX_CAPACITY then some now else b.closing_date)) ∧
    (∀ q : π, (b.remove_piece q).1.closed = true → b.closed = true) ∧
    (∀ (s : QualityControlSystem) (i : ℤ) (b' : Box Piece),
      b' ∈ (s.remove_piece i).1.boxes → b'.closed = true → b' ∈ s.boxes) := by
  refine ⟨?_, ?_, ?_, ?_, ?_⟩
  · intro h; simp [Box.add_piece, h]
  · intro h h'; simp [Box.add_piece, h, Nat.not_lt.mpr h']
  · intro h h'
    by_cases hfull : b.pieces.length + 1 = Box.MAX_CAPACITY <;>
      simp [Box.add_piece, Box.close, h, h', hfull]
  · intro q h
    by_cases hm : q ∈ b.pieces
    · simp only [Box.remove_piece, if_pos hm] at h
      by_cases hcl : b.closed <;> simp [hcl] at h ⊢
    · simpa [Box.remove_piece, hm] using h
  · intro s i b' hmem hcl
    unfold QualityControlSystem.remove_piece at hmem
    split at hmem
    · split at hmem
      · dsimp only at hmem
        split at hmem
        · rename_i p' hp' happr'
          rcases QualityControlSystem.removeFromBoxes_mem s.boxes p' b' hmem with hx | ⟨b₀, hb₀, he⟩
          · exact hx
          · rcases Box.remove_piece_fst_closed b₀ p' with hc | hc
            · rw [he] at hcl
              rw [hc] at hcl
              cases hcl
            · rw [he, hc]
              exact hb₀
        · exact hmem
      · exact hmem
    · exact hmem

theorem claim_C2_box_add_witness :
    ((Box.mk 1 [5] false none : Box ℕ).add_piece 7 "t").2 = true ∧
    ((Box.mk 1 [5] false none : Box ℕ).add_piece 7 "t").1.pieces = [5, 7] ∧
    (Box.mk 1 [] true none : Box ℕ).add_piece 7 "t" = (Box.mk 1 [] true none, false) ∧
    (Box.mk 1 [3] true none : Box ℕ).closed = true ∧
    Box.mk 2 ([] : List Piece) true (some "x")
      ∈ (QualityControlSystem.mk [] [Box.mk 2 [] true (some "x")] 5).boxes := by
  have h1 := claim_C2_box_add ℕ (Box.mk 1 [5] false none) 7 "t"
  refine ⟨(h1.2.2.1 rfl (by decide)).1, (h1.2.2.1 rfl (by decide)).2.1,
    (claim_C2_box_add ℕ (Box.mk 1 [] true none) 7 "t").1 rfl,
    (claim_C2_box_add ℕ (Box.mk 1 [3] true none) 7 "t").2.2.2.1 9 (by decide),
    (claim_C2_box_add ℕ (Box.mk 1 [] false none) 0 "t").2.2.2.2
      (QualityControlSystem.mk [] [Box.mk 2 [] true (some "x")] 5) 0
      (Box.mk 2 [] true (some "x")) (by decide) (by decide)⟩

namespace QualityControlSystem

/-- Full description of a rejected registration: the piece is appended,
nothing else changes except the counter. -/
theorem register_piece_spec_rejected (s : QualityControlSystem) (w : ℚ) (c : String)
    (l : ℚ) (t : String)
    (happr : (Piece.make (pieceId s.next_id) w c l).approved = false) :
    s.register_piece w c l t =
      (⟨s.pieces ++ [Piece.make (pieceId s.next_id) w c l], s.boxes, s.next_id + 1⟩,
       ⟨Piece.make (pieceId s.next_id) w c l, false, false, false, none, none⟩) := by
  simp only [register_piece, generate_piece_id]
  rw [if_neg (by simp [happr])]
  simp [happr]

/-- Full description of an accepted registration when the current box is
open with room (what the registry invariant guarantees). -/
theorem register_piece_spec_approved (s : QualityControlSystem) (w : ℚ) (c : String)
    (l : ℚ) (t : String) (b : Box Piece) (hb : s.boxes.getLast? = some b)
    (hbcl : b.closed = false) (hblen : b.pieces.length < Box.MAX_CAPACITY)
    (happr : (Piece.make (pieceId s.next_id) w c l).approved = true) :
    s.register_piece w c l t =
      if b.pieces.length + 1 = Box.MAX_CAPACITY then
        (⟨s.pieces ++ [Piece.make (pieceId s.next_id) w c l],
          (s.boxes.dropLast
            ++ [Box.mk b.number (b.pieces ++ [Piece.make (pieceId s.next_id) w c l])
                  true (some t)])
            ++ [Box.init Piece (s.boxes.length + 1)],
          s.next_id + 1⟩,
         ⟨Piece.make (pieceId s.next_id) w c l, true, true, true,
          some (Box.mk b.number (b.pieces ++ [Piece.make (pieceId s.next_id) w c l])
                  true (some t)),
          some (Box.init Piece (s.boxes.length + 1))⟩)
      else
        (⟨s.pieces ++ [Piece.make (pieceId s.next_id) w c l],
          s.boxes.dropLast
            ++ [Box.mk b.number (b.pieces ++ [Piece.make (pieceId s.next_id) w c l])
                  false b.closing_date],
          s.next_id + 1⟩,
         ⟨Piece.make (pieceId s.next_id) w c l, true, false, false,
          some (Box.mk b.number (b.pieces ++ [Piece.make (pieceId s.next_id) w c l])
                  false b.closing_date),
          none⟩) := by
  simp only [register_piece, generate_piece_id]
  rw [if_pos (by simp [happr])]
  rw [_add_piece_to_box_spec
    ({ s with
       pieces := s.pieces ++ [Piece.make (pieceId s.next_id) w c l]
       next_id := s.next_id + 1 }) _ t b hb hbcl hblen]
  by_cases hfull : b.pieces.length + 1 = Box.MAX_CAPACITY
  · rw [if_pos hfull, if_pos hfull]
    simp [happr]
  · rw [if_neg hfull, if_neg hfull]
    simp [happr]

end QualityControlSystem

/-! ## Claim C4: the register flow -/

/-- Claim C4: a registration always appends exactly one new item to the
item list; a rejected item touches no box; an accepted item is added to
the current (last) box, and when the addition fills that box to 10 the
box closes and a fresh open empty box numbered (previous box count + 1)
is appended, both facts being reported in the result; and 10 accepted
registrations from the initial state close box #1 and leave box #2 empty
and open. -/
theorem claim_C4_register_flow (s : QualityControlSystem)
    (h : QualityControlSystem.Reachable s) (w : ℚ) (c : String) (l : ℚ) (t : String) :
    ((s.register_piece w c l t).1.pieces
        = s.pieces ++ [(s.register_piece w c l t).2.piece]) ∧
    ((s.register_piece w c l t).2.approved = false →
      (s.register_piece w c l t).1.boxes = s.boxes ∧
      (s.register_piece w c l t).2.box_closed = false ∧
      (s.register_piece w c l t).2.new_box_created = false) ∧
    ((s.register_piece w c l t).2.approved = true →
      ∃ b, s.boxes.getLast? = some b ∧
        (b.pieces.length + 1 = Box.MAX_CAPACITY →
          (s.register_piece w c l t).1.boxes
            = (s.boxes.dropLast
                ++ [Box.mk b.number (b.pieces ++ [(s.register_piece w c l t).2.piece])
                      true (some t)])
              ++ [Box.init Piece (s.boxes.length + 1)] ∧
          (s.register_piece w c l t).2.box_closed = true ∧
          (s.register_piece w c l t).2.new_box_created = true ∧
          (s.register_piece w c l t).2.new_box = some (Box.init Piece (s.boxes.length + 1))) ∧
        (b.pieces.length + 1 ≠ Box.MAX_CAPACITY →
          (s.register_piece w c l t).1.boxes
            = s.boxes.dropLast
                ++ [Box.mk b.number (b.pieces ++ [(s.register_piece w c l t).2.piece])
                      false b.closing_date] ∧
          (s.register_piece w c l t).2.box_closed = false ∧
          (s.register_piece w c l t).2.new_box_created = false)) ∧
    ((QualityControlSystem.run (List.replicate 10 (Op.reg 100 "azul" 15 "t"))).boxes.map
        (fun b => (b.number, b.pieces.length, b.closed)) = [(1, 10, true), (2, 0, false)] ∧
      (QualityControlSystem.run (List.replicate 10 (Op.reg 100 "azul" 15 "t"))).boxes.getLast?
        = some (Box.init Piece 2)) := by
  obtain ⟨hne, hlast, _, _, _, _, _⟩ := QualityControlSystem.reachable_sysInv s h
  obtain ⟨b, hb⟩ : ∃ b, s.boxes.getLast? = some b := by
    cases hgl : s.boxes.getLast? with
    | none => exact absurd (List.getLast?_eq_none_iff.mp hgl) hne
    | some b => exact ⟨b, rfl⟩
  obtain ⟨hbcl, hblen⟩ := hlast b hb
  by_cases happr : (Piece.make (pieceId s.next_id) w c l).approved = true
  · rw [QualityControlSystem.register_piece_spec_approved s w c l t b hb hbcl hblen happr]
    by_cases hfull : b.pieces.length + 1 = Box.MAX_CAPACITY
    · rw [if_pos hfull]
      refine ⟨rfl, ?_, ?_, by decide⟩
      · intro hfalse
        simp at hfalse
      · intro _
        exact ⟨b, hb, fun _ => ⟨rfl, rfl, rfl, rfl⟩, fun hn => absurd hfull hn⟩
    · rw [if_neg hfull]
      refine ⟨rfl, ?_, ?_, by decide⟩
      · intro hfalse
        simp at hfalse
      · intro _
        exact ⟨b, hb, fun hf => absurd hf hfull, fun _ => ⟨rfl, rfl, rfl⟩⟩
  · rw [QualityControlSystem.register_piece_spec_rejected s w c l t (by simpa using happr)]
    refine ⟨rfl, fun _ => ⟨rfl, rfl, rfl⟩, ?_, by decide⟩
    intro htrue
    simp at htrue

theorem claim_C4_register_flow_witness :
    ((QualityControlSystem.init.register_piece 100 "azul" 15 "t").1.pieces
      = QualityControlSystem.init.pieces
        ++ [(QualityControlSystem.init.register_piece 100 "azul" 15 "t").2.piece]) ∧
    ((QualityControlSystem.init.register_piece 50 "roxo" 3 "t").2.approved = false →
      (QualityControlSystem.init.register_piece 50 "roxo" 3 "t").1.boxes
        = QualityControlSystem.init.boxes) := by
  constructor
  · exact (claim_C4_register_flow QualityControlSystem.init ⟨[], rfl⟩ 100 "azul" 15 "t").1
  · intro h
    exact ((claim_C4_register_flow QualityControlSystem.init ⟨[], rfl⟩ 50 "roxo" 3 "t").2.1 h).1

/-! ## Claim C6: registry remove -/

namespace QualityControlSystem

theorem removeFromBoxes_not_present (bs : List (Box Piece)) (p : Piece)
    (h : ∀ b ∈ bs, p ∉ b.pieces) : removeFromBoxes bs p = bs := by
  induction bs with
  | nil => rfl
  | cons b bs ih =>
    rw [removeFromBoxes_cons]
    rw [if_neg (by simp [Box.remove_piece, h b (List.mem_cons_self b bs)])]
    rw [ih (fun b' hb' => h b' (List.mem_cons_of_mem b hb'))]

theorem removeFromBoxes_first_present (bs₁ bs₂ : List (Box Piece)) (b : Box Piece)
    (p : Piece) (h₁ : ∀ b' ∈ bs₁, p ∉ b'.pieces) (h₂ : p ∈ b.pieces) :
    removeFromBoxes (bs₁ ++ b :: bs₂) p = bs₁ ++ (b.remove_piece p).1 :: bs₂ := by
  induction bs₁ with
  | nil =>
    simp only [List.nil_append]
    rw [removeFromBoxes_cons]
    rw [if_pos (by simp [Box.remove_piece, h₂])]
  | cons x xs ih =>
    simp only [List.cons_append]
    rw [removeFromBoxes_cons]
    rw [if_neg (by simp [Box.remove_piece, h₁ x (List.mem_cons_self x xs)])]
    rw [ih (fun b' hb' => h₁ b' (List.mem_cons_of_mem x hb'))]

end QualityControlSystem

/-- Claim C6: a remove with an index outside `[0, length)` — negative
included — fails with `success = false` and the message, and leaves the
whole state unchanged; a valid index removes exactly that position
(surviving items keep order and identifiers), returns the item with
`success = true`, leaves the counter alone, and — when the removed item
was accepted — removes it by identity from the first box (in sequence
order) containing it. -/
theorem claim_C6_remove (s : QualityControlSystem) (i : ℤ) :
    ((i < 0 ∨ (s.pieces.length : ℤ) ≤ i) →
      s.remove_piece i = (s, ⟨false, none, "Invalid piece index"⟩)) ∧
    (0 ≤ i → i < (s.pieces.length : ℤ) →
      ∃ p, s.pieces[i.toNat]? = some p ∧
        (s.remove_piece i).2 = ⟨true, some p, "Piece " ++ p.id ++ " removed successfully"⟩ ∧
        (s.remove_piece i).1.pieces = s.pieces.take i.toNat ++ s.pieces.drop (i.toNat + 1) ∧
        (s.remove_piece i).1.next_id = s.next_id ∧
        (s.remove_piece i).1.boxes =
          (if p.approved = true then QualityControlSystem.removeFromBoxes s.boxes p
           else s.boxes)) ∧
    (∀ (bs : List (Box Piece)) (p : Piece), (∀ b ∈ bs, p ∉ b.pieces) →
      QualityControlSystem.removeFromBoxes bs p = bs) ∧
    (∀ (bs₁ bs₂ : List (Box Piece)) (b : Box Piece) (p : Piece),
      (∀ b' ∈ bs₁, p ∉ b'.pieces) → p ∈ b.pieces →
      QualityControlSystem.removeFromBoxes (bs₁ ++ b :: bs₂) p
        = bs₁ ++ (b.remove_piece p).1 :: bs₂) := by
  refine ⟨?_, ?_, QualityControlSystem.removeFromBoxes_not_present,
    QualityControlSystem.removeFromBoxes_first_present⟩
  · intro hout
    unfold QualityControlSystem.remove_piece
    rw [if_neg (by omega)]
  · intro h0 hlt
    have hnat : i.toNat < s.pieces.length := by omega
    obtain ⟨p, hp⟩ : ∃ p, s.pieces[i.toNat]? = some p :=
      ⟨s.pieces[i.toNat], List.getElem?_eq_getElem hnat⟩
    refine ⟨p, hp, ?_⟩
    unfold QualityControlSystem.remove_piece
    rw [if_pos ⟨h0, hlt⟩, hp]
    dsimp only
    rw [List.eraseIdx_eq_take_drop_succ]
    by_cases happr : p.approved = true
    · rw [if_pos happr, if_pos happr]
      exact ⟨rfl, rfl, rfl, rfl⟩
    · rw [if_neg happr, if_neg happr]
      exact ⟨rfl, rfl, rfl, rfl⟩

theorem claim_C6_remove_witness :
    QualityControlSystem.init.remove_piece (-1)
      = (QualityControlSystem.init, ⟨false, none, "Invalid piece index"⟩) ∧
    (∃ p, (QualityControlSystem.run [Op.reg 100 "azul" 15 "t"]).pieces[(0 : ℤ).toNat]?
        = some p ∧
      ((QualityControlSystem.run [Op.reg 100 "azul" 15 "t"]).remove_piece 0).2
        = ⟨true, some p, "Piece " ++ p.id ++ " removed successfully"⟩ ∧
      ((QualityControlSystem.run [Op.reg 100 "azul" 15 "t"]).remove_piece 0).1.pieces
        = (QualityControlSystem.run [Op.reg 100 "azul" 15 "t"]).pieces.take 0
          ++ (QualityControlSystem.run [Op.reg 100 "azul" 15 "t"]).pieces.drop 1 ∧
      ((QualityControlSystem.run [Op.reg 100 "azul" 15 "t"]).remove_piece 0).1.next_id
        = (QualityControlSystem.run [Op.reg 100 "azul" 15 "t"]).next_id ∧
      ((QualityControlSystem.run [Op.reg 100 "azul" 15 "t"]).remove_piece 0).1.boxes
        = (if p.approved = true then
            QualityControlSystem.removeFromBoxes
              (QualityControlSystem.run [Op.reg 100 "azul" 15 "t"]).boxes p
          else (QualityControlSystem.run [Op.reg 100 "azul" 15 "t"]).boxes)) :=
  ⟨(claim_C6_remove QualityControlSystem.init (-1)).1 (by decide),
   (claim_C6_remove (QualityControlSystem.run [Op.reg 100 "azul" 15 "t"]) 0).2.1
     (by decide) (by decide)⟩

/-! ## Claims C7 and C10: reachable-state invariants -/

/-- Claim C7: in every reachable registry state, every box holds at most
10 pieces, the pieces stored across all boxes are pairwise distinct (so
an item sits in at most one box, at most once), and every piece stored
in a box is approved (no rejected item is ever boxed). -/
theorem claim_C7_container_invariants (s : QualityControlSystem)
    (h : QualityControlSystem.Reachable s) :
    (∀ b ∈ s.boxes, b.pieces.length ≤ Box.MAX_CAPACITY) ∧
    (boxPieces s).Nodup ∧
    (∀ p ∈ boxPieces s, p.approved = true) := by
  obtain ⟨_, _, h3, h4, h5, _, _⟩ := QualityControlSystem.reachable_sysInv s h
  exact ⟨h3, h4, h5⟩

theorem claim_C7_container_invariants_witness :
    (∀ b ∈ (QualityControlSystem.run [Op.reg 100 "azul" 15 "t"]).boxes,
      b.pieces.length ≤ Box.MAX_CAPACITY) ∧
    (boxPieces (QualityControlSystem.run [Op.reg 100 "azul" 15 "t"])).Nodup ∧
    (∀ p ∈ boxPieces (QualityControlSystem.run [Op.reg 100 "azul" 15 "t"]),
      p.approved = true) :=
  claim_C7_container_invariants (QualityControlSystem.run [Op.reg 100 "azul" 15 "t"])
    ⟨[Op.reg 100 "azul" 15 "t"], rfl⟩

/-- Claim C10: in every reachable registry state the current (last) box
exists, is open, and holds fewer than 10 pieces, so `add_piece` on it
always succeeds — the defensive failure branch is never taken during a
registration. -/
theorem claim_C10_current_box_open (s : QualityControlSystem)
    (h : QualityControlSystem.Reachable s) :
    ∃ b, s.boxes.getLast? = some b ∧ b.closed = false ∧
      b.pieces.length < Box.MAX_CAPACITY ∧
      ∀ (p : Piece) (t : String), (b.add_piece p t).2 = true := by
  obtain ⟨hne, hlast, _, _, _, _, _⟩ := QualityControlSystem.reachable_sysInv s h
  obtain ⟨b, hb⟩ : ∃ b, s.boxes.getLast? = some b := by
    cases hgl : s.boxes.getLast? with
    | none => exact absurd (List.getLast?_eq_none_iff.mp hgl) hne
    | some b => exact ⟨b, rfl⟩
  obtain ⟨hc, hl⟩ := hlast b hb
  refine ⟨b, hb, hc, hl, fun p t => ?_⟩
  rw [Box.add_piece_success b p t hc hl]

theorem claim_C10_current_box_open_witness :
    ∃ b, QualityControlSystem.init.boxes.getLast? = some b ∧ b.closed = false ∧
      b.pieces.length < Box.MAX_CAPACITY ∧
      ∀ (p : Piece) (t : String), (b.add_piece p t).2 = true :=
  claim_C10_current_box_open QualityControlSystem.init ⟨[], rfl⟩

/-! ## Claim C8: statistics consistency -/

theorem length_filter_add_length_filter_not (l : List Piece) (f : Piece → Bool) :
    (l.filter f).length + (l.filter (fun x => !f x)).length = l.length := by
  induction l with
  | nil => rfl
  | cons x xs ih =>
    cases hf : f x <;> simp [List.filter_cons, hf] <;> omega

/-- Claim C8: the statistics always satisfy
`approved_count + rejected_count = total_count`; the approval rate is 0
when there are no pieces (no division fault) and equals
accepted/total × 100 otherwise. -/
theorem claim_C8_statistics (s : QualityControlSystem) :
    (s.get_statistics.approved_count + s.get_statistics.rejected_count
      = s.get_statistics.total_pieces) ∧
    (s.get_statistics.total_pieces = 0 → s.get_statistics.approval_rate = 0) ∧
    (0 < s.get_statistics.total_pieces →
      s.get_statistics.approval_rate
        = (s.get_statistics.approved_count : ℚ) / (s.get_statistics.total_pieces : ℚ) * 100) := by
  unfold QualityControlSystem.get_statistics QualityControlSystem.get_approved_pieces
    QualityControlSystem.get_rejected_pieces
  dsimp only
  refine ⟨length_filter_add_length_filter_not s.pieces (fun p => p.approved), ?_, ?_⟩
  · intro h0
    rw [if_neg (by omega)]
  · intro hpos
    rw [if_pos hpos]

theorem claim_C8_statistics_witness :
    (QualityControlSystem.init.get_statistics.approved_count
      + QualityControlSystem.init.get_statistics.rejected_count
      = QualityControlSystem.init.get_statistics.total_pieces) ∧
    QualityControlSystem.init.get_statistics.approval_rate = 0 ∧
    (QualityControlSystem.run [Op.reg 100 "azul" 15 "t"]).get_statistics.approval_rate
      = ((QualityControlSystem.run
            [Op.reg 100 "azul" 15 "t"]).get_statistics.approved_count : ℚ)
        / ((QualityControlSystem.run
            [Op.reg 100 "azul" 15 "t"]).get_statistics.total_pieces : ℚ) * 100 :=
  ⟨(claim_C8_statistics QualityControlSystem.init).1,
   (claim_C8_statistics QualityControlSystem.init).2.1 rfl,
   (claim_C8_statistics (QualityControlSystem.run [Op.reg 100 "azul" 15 "t"])).2.2
     (by decide)⟩

/-! ## Claim C9: the rejection analysis (a code bug) -/

/-- Claim C9 fails on the code: `_analyze_rejection_reasons` scans the
reason strings for the English markers `weight`/`color`/`length`, but
the reasons produced by piece classification are Portuguese
("Peso ...", "Cor ...", "Comprimento ..."), so every issue counter is 0
even for a piece that violates a rule. Evaluated here at a piece of
weight 200 (violating the weight rule): the analysis reports no weight
issue, and likewise for an all-rules violation. -/
theorem claim_C9_rejection_analysis_bug :
    (Piece.make (pieceId 1) 200 "azul" 15).approved = false ∧
    (Piece.make (pieceId 1) 200 "azul" 15).weight > Piece.MAX_WEIGHT ∧
    (Piece.make (pieceId 1) 200 "azul" 15).rejection_reasons = [weightReason 200] ∧
    QualityControlSystem._analyze_rejection_reasons [Piece.make (pieceId 1) 200 "azul" 15]
      = ⟨0, 0, 0⟩ ∧
    (QualityControlSystem.run [Op.reg 200 "azul" 15 "t"]).get_statistics.rejection_analysis
      = some ⟨0, 0, 0⟩ ∧
    QualityControlSystem._analyze_rejection_reasons
      [Piece.make (pieceId 1) 50 "roxo" 99] = ⟨0, 0, 0⟩ := by
  decide
